import Mathlib

/-!
Verification development for the viessmann-optolink2mqtt core:
a shallow embedding of `src/optolink2mqtt/optolinkvs2.py`
(`OptolinkVS2Protocol`: VS2 handshake, telegram encode, checksum,
receive state machine) and `src/optolink2mqtt/optolinkvs2_register.py`
(`OptolinkVS2Register`: MQTT topic naming and payload rendering),
together with theorems settling the specification claims.

Modelling conventions:
- Python `bytes`/`bytearray` values are `List Nat` with each element a byte
  value; arithmetic wrap-around is written explicitly with `% 256`.
- `serial.Serial` is replaced by an explicit input trace: for the receive
  loop, a list of per-iteration `read_all` results (`ReadEv`); for the
  handshake, a function from the poll counter to the result of a
  one-byte `read`.
- Side effects (the MQTT publish callback, writes to the port, buffer
  resets, sleeps) are reified as data carried in the result, so that
  theorems can speak about them.
- Python `str.lower` is modelled per character by `Char.toLower`
  (ASCII letter case folding); `str.strip` by removing leading and
  trailing whitespace characters.
-/

namespace Optolink2Mqtt

/-! ## Embedding of `optolinkvs2_register.py` -/

/-- Python `str.strip()`: remove leading and trailing whitespace. -/
def pyStrip (s : List Char) : List Char :=
  ((s.dropWhile Char.isWhitespace).reverse.dropWhile Char.isWhitespace).reverse

/-- One character of Python `str.replace(" ", "_")`. -/
def replaceSpace (c : Char) : Char :=
  if c = ' ' then '_' else c

/-- The fields of the optional `ha_discovery` mapping that the claims
mention; `OptolinkVS2Register.__init__` stores the mapping unmodified. -/
structure HaDiscovery where
  name : String
  platform : String
deriving DecidableEq

/-- The `OptolinkVS2Register` object state after `__init__`
(`optolinkvs2_register.py` lines 28-51). -/
structure OptolinkVS2Register where
  name : List Char
  sampling_period_sec : Nat
  mqtt_base_topic : List Char
  address : Nat
  length : Nat
  signed : Bool
  ha_discovery : Option HaDiscovery
deriving DecidableEq

/-- `OptolinkVS2Register.__init__`: stores the fields; the only computation
is stripping one trailing slash from `mqtt_base_topic`.  The source
performs no validation of `ha_discovery` and has no `writable` field. -/
def mk_register (name : List Char) (sampling_period_sec : Nat) (address : Nat)
    (length : Nat) (signed : Bool) (mqtt_base_topic : List Char)
    (ha_discovery : Option HaDiscovery) : OptolinkVS2Register :=
  { name := name
    sampling_period_sec := sampling_period_sec
    mqtt_base_topic :=
      if mqtt_base_topic.getLastD ' ' = '/' then mqtt_base_topic.dropLast
      else mqtt_base_topic
    address := address
    length := length
    signed := signed
    ha_discovery := ha_discovery }

/-- `OptolinkVS2Register.get_mqtt_topic`:
`self.name.strip().replace(" ", "_").lower()` appended to the base topic
with a slash in between. -/
def get_mqtt_topic (reg : OptolinkVS2Register) : List Char :=
  let sanitized_name := ((pyStrip reg.name).map replaceSpace).map Char.toLower
  reg.mqtt_base_topic ++ ('/' :: sanitized_name)

/-- The sanitization exactly as the specification words it: trim
leading/trailing whitespace, lowercase, then replace each literal space
with an underscore.  Defined for comparison with the source order
(strip, replace, lower) used by `get_mqtt_topic`. -/
def sanitize_name_spec (s : List Char) : List Char :=
  ((pyStrip s).map Char.toLower).map replaceSpace

/-- Python `int.from_bytes(raw, byteorder="big", signed=signed)`. -/
def int_from_bytes_be (raw : List Nat) (signed : Bool) : Int :=
  let u : Nat := raw.foldl (fun acc b => acc * 256 + b) 0
  if signed ∧ 0x80 ≤ raw.headD 0 then (u : Int) - (256 : Int) ^ raw.length
  else (u : Int)

/-- One hexadecimal digit, lowercase, as produced by Python `bytes.hex()`. -/
def hexDigit (n : Nat) : Char :=
  if n < 10 then Char.ofNat (48 + n) else Char.ofNat (87 + n)

/-- Python `bytes.hex()`: two lowercase hex digits per byte. -/
def bytes_hex (raw : List Nat) : String :=
  String.mk (raw.flatMap (fun b => [hexDigit (b / 16), hexDigit (b % 16)]))

/-- `OptolinkVS2Register.get_mqtt_payload`: for declared lengths 1, 2 and 4
the raw bytes are converted with `int.from_bytes(..., byteorder="big",
signed=self.signed)` and rendered with `str`; for every other declared
length the hex string of the raw bytes is returned. -/
def get_mqtt_payload (reg : OptolinkVS2Register) (rawdata : List Nat) : String :=
  if reg.length = 1 then toString (int_from_bytes_be rawdata reg.signed)
  else if reg.length = 2 then toString (int_from_bytes_be rawdata reg.signed)
  else if reg.length = 4 then toString (int_from_bytes_be rawdata reg.signed)
  else bytes_hex rawdata

/-! ## Embedding of `optolinkvs2.py`: checksum and frame encoding -/

/-- `OptolinkVS2Protocol.calc_crc`: sum of the bytes from index 1 through
index `telegram[1] + 1` inclusive, modulo 256. -/
def calc_crc (telegram : List Nat) : Nat :=
  let firstbyte := 1
  let lastbyte := telegram.getD 1 0 + 1
  ((telegram.drop firstbyte).take (lastbyte + 1 - firstbyte)).sum % 0x100

/-- The request frame built by `OptolinkVS2Protocol.read_datapoint_ext`:
an 8-byte buffer whose final byte is `calc_crc` of the buffer (computed
while that final byte still holds 0). -/
def read_req_frame (addr rdlen : Nat) : List Nat :=
  let outbuff : List Nat :=
    [0x41, 0x05, 0x00, 0x01, (addr >>> 8) &&& 0xFF, addr &&& 0xFF, rdlen, 0]
  outbuff.set 7 (calc_crc outbuff)

/-- The request frame built by `OptolinkVS2Protocol.write_datapoint_ext`:
a `(len(data) + 8)`-byte buffer whose final byte is `calc_crc` of the
buffer (computed while that final byte still holds 0). -/
def write_req_frame (addr : Nat) (data : List Nat) : List Nat :=
  let wrlen := data.length
  let outbuff : List Nat :=
    ([0x41, 5 + wrlen, 0x00, 0x02, (addr >>> 8) &&& 0xFF, addr &&& 0xFF, wrlen]
      ++ data) ++ [0]
  outbuff.dropLast ++ [calc_crc outbuff]

/-! ## Embedding of `optolinkvs2.py`: receive state machine -/

/-- The result of one `ser.read_all()` call inside the receive loop:
either the currently available bytes (possibly none), or an exception
raised by the transport. -/
inductive ReadEv where
  | ok (chunk : List Nat) : ReadEv
  | exc : ReadEv
deriving DecidableEq

/-- One invocation of the `mqtt_publ_callback` hook, with the argument
tuple `(code, addr, data, msgid, msqn, fctcd, dlen)` passed by
`OptolinkVS2Protocol._return`. -/
structure Hook where
  code : Nat
  addr : Nat
  data : List Nat
  msgid : Nat
  msqn : Nat
  fctcd : Nat
  dlen : Int
deriving DecidableEq

/-- The value returned by `receive_telegr` (code, address, payload),
together with the list of publish-hook invocations performed on the way
out (the invocations that happen when a callback is configured). -/
structure RxResult where
  code : Nat
  addr : Nat
  data : List Nat
  hooks : List Hook
deriving DecidableEq

/-- The mutable local state of `receive_telegr`. -/
structure RxSt where
  state : Nat
  inbuff : List Nat
  alldata : List Nat
  retdata : List Nat
  addr : Nat
  msgid : Nat
  msqn : Nat
  fctcd : Nat
  dlen : Int
deriving DecidableEq

/-- Initial local state of `receive_telegr` (lines 220-228). -/
def initRxSt : RxSt :=
  { state := 0, inbuff := [], alldata := [], retdata := [], addr := 0
    msgid := 0x100, msqn := 0x100, fctcd := 0x100, dlen := -1 }

/-- `OptolinkVS2Protocol._return`: invoke the publish hook with
`(code, addr, data, msgid, msqn, fctcd, dlen)` and return
`(code, addr, data)` (the `raw` flag only chooses between the bytearray
and a copy of it, which are equal as values). -/
def mkReturn (code addr : Nat) (data : List Nat) (st : RxSt) : RxResult :=
  { code := code, addr := addr, data := data
    hooks := [{ code := code, addr := addr, data := data
                msgid := st.msgid, msqn := st.msqn, fctcd := st.fctcd
                dlen := st.dlen }] }

/-- Receive state 0 (lines 243-262): the optional ACK/NACK gate.  Only
entered while `state == 0`; when `resptelegr` holds and bytes are
buffered, the first byte selects ACK (consume, advance), NACK
(terminate 0x15) or unknown (terminate 0x20); otherwise the state
advances to 1 without consuming anything. -/
def rxStep0 (resptelegr : Bool) (st : RxSt) : Except RxResult RxSt :=
  if st.state = 0 then
    if resptelegr = true ∧ st.inbuff ≠ [] then
      if st.inbuff.getD 0 0 = 0x06 then
        .ok { st with state := 1, inbuff := st.inbuff.drop 1 }
      else if st.inbuff.getD 0 0 = 0x15 then
        .error (mkReturn 0x15 st.addr st.alldata st)
      else
        .error (mkReturn 0x20 st.addr st.alldata st)
    else .ok { st with state := 1 }
  else .ok st

/-- Receive state 1 (lines 265-272): the first buffered byte must be the
STX marker 0x41, otherwise terminate with 0x41. -/
def rxStep1 (st : RxSt) : Except RxResult RxSt :=
  if st.state = 1 ∧ st.inbuff ≠ [] then
    if st.inbuff.getD 0 0 ≠ 0x41 then
      .error (mkReturn 0x41 st.addr st.alldata st)
    else .ok { st with state := 2 }
  else .ok st

/-- Receive state 2 (lines 274-304): read the declared payload length,
reject lengths below 5, and once at least `pllen + 3` bytes are buffered
truncate the buffer to `pllen + 4` bytes, decode the header fields and
the payload slice, verify the checksum against the last buffered byte,
and classify the outcome (0xFE, 0x03 or 0x01). -/
def rxStep2 (st : RxSt) : Except RxResult RxSt :=
  if st.state = 2 ∧ 1 < st.inbuff.length then
    let pllen := st.inbuff.getD 1 0
    if pllen < 5 then
      .error (mkReturn 0xFD st.addr st.alldata st)
    else if pllen + 3 ≤ st.inbuff.length then
      let buf := st.inbuff.take (pllen + 4)
      let msgid := buf.getD 2 0
      let msqn := (buf.getD 3 0 &&& 0xE0) >>> 5
      let fctcd := buf.getD 3 0 &&& 0x1F
      let addr := buf.getD 4 0 * 256 + buf.getD 5 0
      let dlen : Int := buf.getD 6 0
      let retdata := (buf.drop 7).take (pllen + 2 - 7)
      let st' := { st with inbuff := buf, msgid := msgid, msqn := msqn
                           fctcd := fctcd, addr := addr, dlen := dlen
                           retdata := retdata }
      if buf.getLastD 0 ≠ calc_crc buf then
        .error (mkReturn 0xFE addr retdata st')
      else if msgid &&& 0x0F = 0x03 then
        .error (mkReturn 0x03 addr retdata st')
      else
        .error (mkReturn 0x01 addr retdata st')
    else .ok st
  else .ok st

/-- One pass through the three sequential state blocks of the receive
loop body (they are independent `if` statements, so one iteration can
advance through several states). -/
def rxStep (resptelegr : Bool) (st : RxSt) : Except RxResult RxSt :=
  match rxStep0 resptelegr st with
  | .error res => .error res
  | .ok st1 =>
    match rxStep1 st1 with
    | .error res => .error res
    | .ok st2 => rxStep2 st2

/-- The bounded receive loop (`for _ in range(600)`): each iteration
appends the bytes read in that iteration, runs the state blocks, and
either terminates or continues; a transport exception returns
`(0xAA, 0, retdata)` directly, without going through `_return`; fuel
exhaustion is the timeout return `_return(0xFF, addr, retdata, ...)`. -/
def rxLoop (resptelegr : Bool) : Nat → List ReadEv → RxSt → RxResult
  | 0, _, st => mkReturn 0xFF st.addr st.retdata st
  | fuel + 1, trace, st =>
    match trace.headD (ReadEv.ok []) with
    | .exc => { code := 0xAA, addr := 0, data := st.retdata, hooks := [] }
    | .ok chunk =>
      let st1 := { st with inbuff := st.inbuff ++ chunk
                           alldata := st.alldata ++ chunk }
      match rxStep resptelegr st1 with
      | .error res => res
      | .ok st2 => rxLoop resptelegr fuel trace.tail st2

/-- `OptolinkVS2Protocol.receive_telegr` as a function of the read trace.
The `raw` flag of the source only selects a value-equal copy of the
payload and is dropped here. -/
def receive_telegr (resptelegr : Bool) (trace : List ReadEv) : RxResult :=
  rxLoop resptelegr 600 trace initRxSt

/-- `OptolinkVS2Protocol.write_datapoint_ext`: build the write request
frame, send it, and receive the response telegram
(`resptelegr=True, raw=False`). -/
def write_datapoint_ext (trace : List ReadEv) (addr : Nat) (data : List Nat) :
    List Nat × RxResult :=
  (write_req_frame addr data, receive_telegr true trace)

/-- `OptolinkVS2Protocol.write_datapoint`: keep only the return code of
`write_datapoint_ext` and compare it with 0x01. -/
def write_datapoint (trace : List ReadEv) (addr : Nat) (data : List Nat) : Bool :=
  (write_datapoint_ext trace addr data).2.code == 0x01

/-! ## Embedding of `optolinkvs2.py`: handshake -/

/-- Observable actions of `init_vs2` on the serial port: input-buffer
resets, writes, the 100 ms sleeps, and the one-byte polls. -/
inductive SerialEv where
  | reset : SerialEv
  | write (data : List Nat) : SerialEv
  | sleep : SerialEv
  | readOne (b : Option Nat) : SerialEv
deriving DecidableEq

/-- One polling window of `init_vs2`: up to `fuel` attempts, each a
100 ms sleep followed by a one-byte read; stops at the first read that
returns the `target` byte and reports the next poll index. -/
def pollByte (reads : Nat → Option Nat) (target : Nat) :
    Nat → Nat → Option Nat × List SerialEv
  | _, 0 => (none, [])
  | start, fuel + 1 =>
    let r := reads start
    let evs := [SerialEv.sleep, SerialEv.readOne r]
    if r = some target then (some (start + 1), evs)
    else
      let rest := pollByte reads target (start + 1) fuel
      (rest.1, evs ++ rest.2)

/-- `OptolinkVS2Protocol.init_vs2`: reset the input buffer, send EOT
(0x04), poll up to 30 times for ENQ (0x05) and fail on timeout; then
reset the input buffer, send `[0x16, 0x00, 0x00]`, poll up to 30 times
for ACK (0x06); success exactly on ACK.  `reads k` is the result of the
k-th one-byte read performed by the function. -/
def init_vs2 (reads : Nat → Option Nat) : Bool × List SerialEv :=
  let ev0 := [SerialEv.reset, SerialEv.write [0x04]]
  match pollByte reads 0x05 0 30 with
  | (none, evs1) => (false, ev0 ++ evs1)
  | (some next, evs1) =>
    let ev1 := [SerialEv.reset, SerialEv.write [0x16, 0x00, 0x00]]
    match pollByte reads 0x06 next 30 with
    | (none, evs2) => (false, ev0 ++ evs1 ++ ev1 ++ evs2)
    | (some _, evs2) => (true, ev0 ++ evs1 ++ ev1 ++ evs2)

/-- The write actions contained in a serial event list, in order. -/
def writesOf (evs : List SerialEv) : List (List Nat) :=
  evs.filterMap (fun e => match e with
    | SerialEv.write d => some d
    | _ => none)

/-- The number of 100 ms pauses contained in a serial event list. -/
def sleepCount (evs : List SerialEv) : Nat :=
  evs.countP (fun e => match e with
    | SerialEv.sleep => true
    | _ => false)

/-- The number of input-buffer resets contained in a serial event list. -/
def resetCount (evs : List SerialEv) : Nat :=
  evs.countP (fun e => match e with
    | SerialEv.reset => true
    | _ => false)

/-! ## Concrete inputs used by individual claims -/

/-- A complete response frame: STX, declared payload length 7, response
protocol id 0x01, function byte 0x01, address 0x0101, block length 2,
payload bytes 0xAB 0xCD, correct checksum 0x85. -/
def c1_frame : List Nat :=
  [0x41, 0x07, 0x01, 0x01, 0x01, 0x01, 0x02, 0xAB, 0xCD, 0x85]

/-- A complete response frame with a correct checksum, delivered without
a leading ACK byte. -/
def c2_frame : List Nat :=
  [0x41, 0x07, 0x01, 0x01, 0x01, 0x01, 0x02, 0xAB, 0xCD, 0x85]

/-- A length-2 unsigned register, as the constructor builds it. -/
def c3_reg_len2 : OptolinkVS2Register :=
  mk_register "Counter".toList 60 0x0000 2 false "home/device".toList none

/-- A length-8 unsigned register, as the constructor builds it. -/
def c3_reg_len8 : OptolinkVS2Register :=
  mk_register "Large Value".toList 60 0x0000 8 false "home/device".toList none

/-- Discovery metadata naming the command-capable platform `switch`. -/
def c4_cfg : HaDiscovery :=
  { name := "Status", platform := "switch" }

/-- A read-request frame with declared payload length 5 used to
instantiate the checksum formula. -/
def c5_frame : List Nat :=
  [0x41, 0x05, 0x00, 0x01, 0x01, 0x01, 0x02, 0x0A]

/-- A read trace for the handshake: ENQ answered at the third poll,
ACK at the eighth. -/
def c7_reads : Nat → Option Nat :=
  fun n => if n = 2 then some 0x05 else if n = 7 then some 0x06 else none

/-- A complete telegram frame of declared payload length
`5 + payload.length`: STX, length byte, protocol id, sequence/function
byte, address bytes, block length, payload, and a final checksum byte. -/
def mk_test_frame (protid b3 aHi aLo dl : Nat) (payload : List Nat)
    (crcb : Nat) : List Nat :=
  0x41 :: (5 + payload.length) :: protid :: b3 :: aHi :: aLo :: dl ::
    (payload ++ [crcb])

/-! ## Helper lemmas -/

/-- `Char.toLower` maps no character to a space. -/
theorem toLower_eq_space {c : Char} (h : Char.toLower c = ' ') : c = ' ' := by
  simp only [Char.toLower] at h
  split at h
  · next h3 =>
    obtain ⟨h4, h5⟩ := h3
    exfalso
    set n := Char.toNat c with hn
    interval_cases n <;> exact absurd h (by decide)
  · exact h

/-- Space-to-underscore replacement commutes with lowercasing. -/
theorem toLower_replaceSpace (c : Char) :
    Char.toLower (replaceSpace c) = replaceSpace (Char.toLower c) := by
  by_cases hsp : c = ' '
  · subst hsp; decide
  · have h1 : replaceSpace c = c := by simp [replaceSpace, hsp]
    have h2 : Char.toLower c ≠ ' ' := fun h => hsp (toLower_eq_space h)
    rw [h1]
    simp [replaceSpace, h2]

/-- Replace-then-lowercase equals lowercase-then-replace on lists. -/
theorem map_toLower_replaceSpace (l : List Char) :
    (l.map replaceSpace).map Char.toLower
      = (l.map Char.toLower).map replaceSpace := by
  induction l with
  | nil => rfl
  | cons a l ih => simp [toLower_replaceSpace a, ih]

/-- Sum of a list prefix, written as an indexed finite sum. -/
theorem take_sum_getD (l : List Nat) : ∀ n, n ≤ l.length →
    (l.take n).sum = ∑ i ∈ Finset.range n, l.getD i 0 := by
  intro n
  induction n with
  | zero => simp
  | succ m ih =>
    intro hn
    have hm : m < l.length := hn
    rw [List.take_succ, List.sum_append, Finset.sum_range_succ,
      ih (Nat.le_of_lt hm)]
    have hsome : l[m]? = some l[m] := List.getElem?_eq_getElem hm
    simp [hsome, List.getD_eq_getElem?_getD]

/-- Sum of a list slice, written as an indexed finite sum. -/
theorem slice_sum_getD (l : List Nat) (a n : Nat) (h : a + n ≤ l.length) :
    ((l.drop a).take n).sum = ∑ i ∈ Finset.range n, l.getD (a + i) 0 := by
  rw [take_sum_getD (l.drop a) n (by simp; omega)]
  refine Finset.sum_congr rfl (fun i _ => ?_)
  simp [List.getD_eq_getElem?_getD, List.getElem?_drop]

/-- Masking with 0xFF is reduction modulo 256. -/
theorem and_255_eq_mod (x : Nat) : x &&& 0xFF = x % 256 := by
  have h := Nat.and_pow_two_sub_one_eq_mod x 8
  norm_num at h
  exact h

/-- For a 16-bit value the encoded high byte is the big-endian quotient. -/
theorem hi_byte_eq (addr : Nat) (h : addr < 65536) :
    (addr >>> 8) &&& 0xFF = addr / 256 := by
  have h1 : addr >>> 8 = addr / 256 := by rw [Nat.shiftRight_eq_div_pow]
  rw [h1, and_255_eq_mod]
  exact Nat.mod_eq_of_lt (by omega)

/-- The checksum does not depend on the byte stored after the summed
range (the final checksum slot). -/
theorem calc_crc_last_irrelevant (base : List Nat) (u v : Nat)
    (hlen : base.getD 1 0 + 2 = base.length) :
    calc_crc (base ++ [u]) = calc_crc (base ++ [v]) := by
  simp only [calc_crc]
  have hg : ∀ w : Nat, (base ++ [w]).getD 1 0 = base.getD 1 0 := by
    intro w
    simp [List.getD_eq_getElem?_getD,
      List.getElem?_append_left (show 1 < base.length by omega)]
  have hdrop : ∀ w : Nat, (base ++ [w]).drop 1 = base.drop 1 ++ [w] := by
    intro w
    rw [List.drop_append_of_le_length (by omega)]
  have htake : ∀ w : Nat,
      (base.drop 1 ++ [w]).take (base.getD 1 0 + 1 + 1 - 1) = base.drop 1 := by
    intro w
    apply List.take_left'
    rw [List.length_drop]
    omega
  rw [hg, hg, hdrop, hdrop, htake, htake]

/-! ## Claim theorems -/

/-- C9: for every register, the state topic is the stored base topic, a
slash, and the sanitized name, where sanitization trims surrounding
whitespace, lowercases, and replaces each literal space character with
an underscore, leaving every other character unchanged (the source
performs replace before lower; the two orders agree). -/
theorem c9_state_topic (reg : OptolinkVS2Register) :
    get_mqtt_topic reg
      = reg.mqtt_base_topic ++ ('/' :: sanitize_name_spec reg.name) := by
  simp only [get_mqtt_topic, sanitize_name_spec, map_toLower_replaceSpace]

/-- C10: `write_datapoint` returns true exactly when the received
response telegram carries the success code 0x01; every other terminal
code yields false, and the address and payload of the response are
dropped. -/
theorem c10_write_datapoint_success_iff (trace : List ReadEv) (addr : Nat)
    (data : List Nat) :
    write_datapoint trace addr data = true
      ↔ (receive_telegr true trace).code = 0x01 := by
  simp [write_datapoint, write_datapoint_ext]

/-- C1: contrary to the claim, the receive loop truncates the buffer to
`declaredLength + 4` bytes rather than `declaredLength + 3`, so a single
trailing noise byte is kept, becomes the last buffered byte, and is
compared against the recomputed checksum: the same frame that succeeds
alone (code 0x01) is rejected as a checksum error (0xFE) when one noise
byte 0x00 trails it, although the decoded payload is unaffected. -/
theorem c1_trailing_noise_corrupts_crc_check :
    (receive_telegr false [ReadEv.ok (c1_frame ++ [0x00])]).code = 0xFE
    ∧ (receive_telegr false [ReadEv.ok c1_frame]).code = 0x01
    ∧ (receive_telegr false [ReadEv.ok (c1_frame ++ [0x00])]).data
        = (receive_telegr false [ReadEv.ok c1_frame]).data := by
  decide

/-- C2 counterexample: a transport read failure is a terminal outcome
(code 0xAA) that returns directly, without invoking the publish hook,
refuting the claim that no terminal outcome skips the hook. -/
theorem c2_transport_failure_returns_without_hook :
    (receive_telegr true [ReadEv.exc]).code = 0xAA
    ∧ (receive_telegr true [ReadEv.exc]).hooks = [] := by
  decide

/-- C3: the decode operation of the source interprets payloads of
declared length 1, 2 or 4 as big-endian integers and renders any other
length as a hex string: `[0x34, 0x12]` decodes to `"13330"` (0x3412),
not 0x1234, and the 8-byte payload `[0x01 .. 0x08]` yields the hex
string, not the little-endian integer 0x0807060504030201 claimed. -/
theorem c3_decode_is_big_endian_and_hex :
    get_mqtt_payload c3_reg_len2 [0x34, 0x12] = "13330"
    ∧ get_mqtt_payload c3_reg_len2 [0x34, 0x12] ≠ toString (0x1234 : Int)
    ∧ get_mqtt_payload c3_reg_len8 [0x01, 0x02, 0x03, 0x04, 0x05, 0x06, 0x07, 0x08]
        = "0102030405060708"
    ∧ get_mqtt_payload c3_reg_len8 [0x01, 0x02, 0x03, 0x04, 0x05, 0x06, 0x07, 0x08]
        ≠ toString (0x0807060504030201 : Int) := by
  decide

/-- C4: contrary to the claim, the register constructor performs no
validation of the discovery metadata (and has no writable flag at all):
construction with a command-capable `switch` platform completes and
stores the metadata unchanged instead of failing. -/
theorem c4_construction_succeeds_without_validation :
    mk_register "Status".toList 60 0x0000 1 false "home/device".toList
        (some c4_cfg)
      = { name := "Status".toList, sampling_period_sec := 60
          mqtt_base_topic := "home/device".toList, address := 0, length := 1
          signed := false, ha_discovery := some c4_cfg } := by
  decide

/-- C5: for a frame whose byte at offset 1 is L and which holds at least
L + 3 bytes, `calc_crc` is the sum of the bytes at offsets 1 through
1 + L inclusive modulo 256 (the length byte plus exactly L following
bytes, excluding the start byte and the checksum slot); it is a pure
function, and since the same `calc_crc` both fills and checks the
checksum slot, recomputing the checksum of a freshly encoded read or
write request frame reproduces its stored checksum byte. -/
theorem c5_checksum_formula_and_roundtrip (frame : List Nat)
    (L addr rdlen : Nat) (data : List Nat)
    (hL : frame.getD 1 0 = L) (hlen : L + 3 ≤ frame.length) :
    calc_crc frame = (∑ i ∈ Finset.range (L + 1), frame.getD (1 + i) 0) % 256
    ∧ (read_req_frame addr rdlen).getD 7 0 = calc_crc (read_req_frame addr rdlen)
    ∧ (write_req_frame addr data).getLastD 0
        = calc_crc (write_req_frame addr data) := by
  refine ⟨?_, ?_, ?_⟩
  · simp only [calc_crc, hL]
    have h1 : L + 1 + 1 - 1 = L + 1 := by omega
    rw [h1, slice_sum_getD frame 1 (L + 1) (by omega)]
  · simp [read_req_frame, calc_crc]
  · simp only [write_req_frame]
    rw [List.dropLast_concat, List.getLastD_concat]
    refine calc_crc_last_irrelevant _ 0 _ ?_
    simp only [List.cons_append, List.nil_append, List.getD_cons_succ,
      List.getD_cons_zero, List.length_cons, List.length_append]
    omega

/-- C5 witness: the checksum formula and both encode round-trips at
concrete inputs. -/
theorem c5_checksum_witness :
    calc_crc c5_frame
      = (∑ i ∈ Finset.range 6, c5_frame.getD (1 + i) 0) % 256
    ∧ (read_req_frame 0x0101 2).getD 7 0 = calc_crc (read_req_frame 0x0101 2)
    ∧ (write_req_frame 0x0101 [0x2A]).getLastD 0
        = calc_crc (write_req_frame 0x0101 [0x2A]) :=
  c5_checksum_formula_and_roundtrip c5_frame 5 0x0101 2 [0x2A]
    (by decide) (by decide)

/-- C6: for every 16-bit address and one-byte read length, the encoded
read request is exactly the 8-byte frame consisting of the start marker
0x41, the fixed payload length 0x05, the request protocol id 0x00, the
virtual-read function code 0x01, the big-endian address bytes, the read
length, and finally the checksum of the frame. -/
theorem c6_read_request_frame (addr rdlen : Nat) (ha : addr < 65536)
    (_hr : rdlen < 256) :
    read_req_frame addr rdlen
      = [0x41, 0x05, 0x00, 0x01, addr / 256, addr % 256, rdlen,
         calc_crc (read_req_frame addr rdlen)] := by
  have h1 : (addr >>> 8) &&& 0xFF = addr / 256 := hi_byte_eq addr ha
  have h2 : addr &&& 0xFF = addr % 256 := and_255_eq_mod addr
  simp [read_req_frame, calc_crc, h1, h2]

/-- C6 witness: the read request frame for address 0x0102 and read
length 4. -/
theorem c6_read_request_frame_witness :
    read_req_frame 0x0102 4
      = [0x41, 0x05, 0x00, 0x01, 1, 2, 4, calc_crc (read_req_frame 0x0102 4)] :=
  c6_read_request_frame 0x0102 4 (by decide) (by decide)

/-- C8: every complete frame whose checksum byte does not match the
recomputed checksum terminates the receive with code 0xFE while still
returning the address and payload decoded from the frame. -/
theorem c8_crc_error_keeps_decoded_fields (protid b3 aHi aLo dl crcb : Nat)
    (payload : List Nat)
    (hcrc : crcb ≠ calc_crc (mk_test_frame protid b3 aHi aLo dl payload crcb)) :
    (receive_telegr false
        [ReadEv.ok (mk_test_frame protid b3 aHi aLo dl payload crcb)]).code
      = 0xFE
    ∧ (receive_telegr false
        [ReadEv.ok (mk_test_frame protid b3 aHi aLo dl payload crcb)]).addr
      = aHi * 256 + aLo
    ∧ (receive_telegr false
        [ReadEv.ok (mk_test_frame protid b3 aHi aLo dl payload crcb)]).data
      = payload := by
  set F := mk_test_frame protid b3 aHi aLo dl payload crcb with hFdef
  have hlenF : F.length = payload.length + 8 := by
    simp [hFdef, mk_test_frame]
  have hne : F ≠ [] := by simp [hFdef, mk_test_frame]
  have h0 : F.getD 0 0 = 0x41 := by rw [hFdef]; rfl
  have h1 : F.getD 1 0 = 5 + payload.length := by rw [hFdef]; rfl
  have h2 : F.getD 2 0 = protid := by rw [hFdef]; rfl
  have h3 : F.getD 3 0 = b3 := by rw [hFdef]; rfl
  have h4 : F.getD 4 0 = aHi := by rw [hFdef]; rfl
  have h5 : F.getD 5 0 = aLo := by rw [hFdef]; rfl
  have h6 : F.getD 6 0 = dl := by rw [hFdef]; rfl
  have hlt1 : 1 < F.length := by omega
  have hnot5 : ¬ (5 + payload.length < 5) := by omega
  have hcompl : 5 + payload.length + 3 ≤ F.length := by omega
  have htake : F.take (5 + payload.length + 4) = F :=
    List.take_of_length_le (by omega)
  have hdrop7 : F.drop 7 = payload ++ [crcb] := by rw [hFdef]; rfl
  have harith : 5 + payload.length + 2 - 7 = payload.length := by omega
  have hret : (F.drop 7).take (5 + payload.length + 2 - 7) = payload := by
    rw [hdrop7, harith]
    exact List.take_left _ _
  have hlast : F.getLastD 0 = crcb := by
    rw [hFdef]
    show List.getLastD (mk_test_frame protid b3 aHi aLo dl payload crcb) 0 = crcb
    rw [show mk_test_frame protid b3 aHi aLo dl payload crcb
        = (0x41 :: (5 + payload.length) :: protid :: b3 :: aHi :: aLo :: dl ::
            payload) ++ [crcb] by simp [mk_test_frame]]
    exact List.getLastD_concat _ _ _
  have hcrcne : F.getLastD 0 ≠ calc_crc F := by rw [hlast]; exact hcrc
  refine ⟨?_, ?_, ?_⟩ <;>
    simp only [receive_telegr, show (600 : Nat) = 599 + 1 from rfl, rxLoop,
      List.headD_cons, rxStep, rxStep0, rxStep1, rxStep2, initRxSt, mkReturn,
      List.nil_append, h0, h1, h2, h3, h4, h5, h6, hne, hlt1, hnot5, hcompl,
      htake, hret, hcrcne, ne_eq, not_false_eq_true, not_true_eq_false,
      if_true, if_false, ite_true, ite_false, and_true, true_and, and_false,
      false_and, reduceCtorEq, Bool.false_eq_true]

/-- C8 witness: a concrete frame with a wrong checksum byte yields code
0xFE together with the decoded address and payload. -/
theorem c8_crc_error_witness :
    (receive_telegr false
        [ReadEv.ok (mk_test_frame 1 1 1 1 2 [0xAB, 0xCD] 0x00)]).code = 0xFE
    ∧ (receive_telegr false
        [ReadEv.ok (mk_test_frame 1 1 1 1 2 [0xAB, 0xCD] 0x00)]).addr
      = 1 * 256 + 1
    ∧ (receive_telegr false
        [ReadEv.ok (mk_test_frame 1 1 1 1 2 [0xAB, 0xCD] 0x00)]).data
      = [0xAB, 0xCD] :=
  c8_crc_error_keeps_decoded_fields 1 1 1 1 2 0x00 [0xAB, 0xCD] (by decide)

/-- Every early termination of the ACK/NACK gate goes through
`_return`. -/
theorem rxStep0_error_shape (r : Bool) (st : RxSt) (res : RxResult)
    (h : rxStep0 r st = .error res) :
    ∃ c a d stx, res = mkReturn c a d stx := by
  simp only [rxStep0] at h
  split at h
  · split at h
    · split at h
      · simp at h
      · split at h
        · cases h
          exact ⟨_, _, _, _, rfl⟩
        · cases h
          exact ⟨_, _, _, _, rfl⟩
    · simp at h
  · simp at h

/-- Every early termination of the STX check goes through `_return`. -/
theorem rxStep1_error_shape (st : RxSt) (res : RxResult)
    (h : rxStep1 st = .error res) :
    ∃ c a d stx, res = mkReturn c a d stx := by
  simp only [rxStep1] at h
  split at h
  · split at h
    · cases h
      exact ⟨_, _, _, _, rfl⟩
    · simp at h
  · simp at h

/-- Every termination of the frame-completion state goes through
`_return`. -/
theorem rxStep2_error_shape (st : RxSt) (res : RxResult)
    (h : rxStep2 st = .error res) :
    ∃ c a d stx, res = mkReturn c a d stx := by
  simp only [rxStep2] at h
  split at h
  · split at h
    · cases h
      exact ⟨_, _, _, _, rfl⟩
    · split at h
      · split at h
        · cases h
          exact ⟨_, _, _, _, rfl⟩
        · split at h
          · cases h
            exact ⟨_, _, _, _, rfl⟩
          · cases h
            exact ⟨_, _, _, _, rfl⟩
      · simp at h
  · simp at h

/-- Every early termination of one loop body pass goes through
`_return`. -/
theorem rxStep_error_shape (r : Bool) (st : RxSt) (res : RxResult)
    (h : rxStep r st = .error res) :
    ∃ c a d stx, res = mkReturn c a d stx := by
  simp only [rxStep] at h
  cases h0 : rxStep0 r st with
  | error res0 =>
    simp only [h0] at h
    cases h
    exact rxStep0_error_shape r st res h0
  | ok st1 =>
    simp only [h0] at h
    cases h1 : rxStep1 st1 with
    | error res1 =>
      simp only [h1] at h
      cases h
      exact rxStep1_error_shape st1 res h1
    | ok st2 =>
      simp only [h1] at h
      exact rxStep2_error_shape st2 res h

/-- Every run of the receive loop either ends in the transport-failure
result (code 0xAA, no hook) or in a `_return` value. -/
theorem rxLoop_hook_shape (r : Bool) :
    ∀ (fuel : Nat) (trace : List ReadEv) (st : RxSt),
      ((rxLoop r fuel trace st).code = 0xAA
        ∧ (rxLoop r fuel trace st).hooks = [])
      ∨ ∃ c a d stx, rxLoop r fuel trace st = mkReturn c a d stx := by
  intro fuel
  induction fuel with
  | zero =>
    intro trace st
    right
    exact ⟨_, _, _, _, rfl⟩
  | succ n ih =>
    intro trace st
    rw [rxLoop]
    cases hev : trace.headD (ReadEv.ok []) with
    | exc => left; exact ⟨rfl, rfl⟩
    | ok chunk =>
      cases hstep : rxStep r
          { st with inbuff := st.inbuff ++ chunk
                    alldata := st.alldata ++ chunk } with
      | error res =>
        simp only [hstep]
        right
        exact rxStep_error_shape _ _ _ hstep
      | ok st2 =>
        simp only [hstep]
        exact ih trace.tail st2

/-- C2 (amended): every terminal outcome except the transport read
failure (code 0xAA) invokes the publish hook exactly once, with the
code, address and payload that the function returns (the remaining
hook arguments are the protocol id, sequence number, function code and
declared length last decoded). -/
theorem c2_hook_exactly_once_unless_handle_lost (r : Bool)
    (trace : List ReadEv)
    (h : (receive_telegr r trace).code ≠ 0xAA) :
    (receive_telegr r trace).hooks.map (fun k => (k.code, k.addr, k.data))
      = [((receive_telegr r trace).code, (receive_telegr r trace).addr,
          (receive_telegr r trace).data)] := by
  unfold receive_telegr at h ⊢
  rcases rxLoop_hook_shape r 600 trace initRxSt with ⟨hc, _⟩ | ⟨c, a, d, stx, heq⟩
  · exact absurd hc h
  · rw [heq]
    simp [mkReturn]

/-- C2 witness: the amended hook property at a successful receive. -/
theorem c2_hook_exactly_once_witness :
    (receive_telegr false [ReadEv.ok c2_frame]).hooks.map
        (fun k => (k.code, k.addr, k.data))
      = [((receive_telegr false [ReadEv.ok c2_frame]).code,
          (receive_telegr false [ReadEv.ok c2_frame]).addr,
          (receive_telegr false [ReadEv.ok c2_frame]).data)] :=
  c2_hook_exactly_once_unless_handle_lost false [ReadEv.ok c2_frame]
    (by decide)

/-- A polling window reports no hit exactly when no read in the window
returns the target byte. -/
theorem pollByte_none_iff (reads : Nat → Option Nat) (target : Nat) :
    ∀ (fuel start : Nat),
      (pollByte reads target start fuel).1 = none
        ↔ ∀ i, i < fuel → reads (start + i) ≠ some target := by
  intro fuel
  induction fuel with
  | zero => intro start; simp [pollByte]
  | succ n ih =>
    intro start
    simp only [pollByte]
    by_cases hr : reads start = some target
    · rw [if_pos hr]
      constructor
      · intro h; exact absurd h (by simp)
      · intro hall
        exact absurd hr (by simpa using hall 0 (Nat.succ_pos n))
    · rw [if_neg hr]
      show (pollByte reads target (start + 1) n).1 = none ↔ _
      rw [ih (start + 1)]
      constructor
      · intro hall i hi
        cases i with
        | zero => simpa using hr
        | succ j =>
          have hj := hall j (by omega)
          rw [show start + (j + 1) = start + 1 + j by omega]
          exact hj
      · intro hall i hi
        have hj := hall (i + 1) (by omega)
        rw [show start + 1 + i = start + (i + 1) by omega]
        exact hj

/-- A polling window reports a hit exactly when some read in the window
returns the target byte; the reported resume index follows the first
such read. -/
theorem pollByte_some_iff (reads : Nat → Option Nat) (target : Nat) :
    ∀ (fuel start n : Nat),
      (pollByte reads target start fuel).1 = some n
        ↔ ∃ i, i < fuel ∧ reads (start + i) = some target
            ∧ (∀ j, j < i → reads (start + j) ≠ some target)
            ∧ n = start + i + 1 := by
  intro fuel
  induction fuel with
  | zero => intro start n; simp [pollByte]
  | succ m ih =>
    intro start n
    simp only [pollByte]
    by_cases hr : reads start = some target
    · rw [if_pos hr]
      constructor
      · intro h
        refine ⟨0, Nat.succ_pos m, by simpa using hr,
          fun j hj => absurd hj (Nat.not_lt_zero j), ?_⟩
        simpa using (Option.some_injective _ h).symm
      · rintro ⟨i, hi, hhit, hmin, hn⟩
        cases i with
        | zero => simp [hn]
        | succ j =>
          exact absurd hr (by simpa using hmin 0 (Nat.succ_pos j))
    · rw [if_neg hr]
      show (pollByte reads target (start + 1) m).1 = some n ↔ _
      rw [ih (start + 1) n]
      constructor
      · rintro ⟨i, hi, hhit, hmin, hn⟩
        refine ⟨i + 1, by omega, ?_, ?_, by omega⟩
        · rw [show start + (i + 1) = start + 1 + i by omega]
          exact hhit
        · intro j hj
          cases j with
          | zero => simpa using hr
          | succ j0 =>
            have hj0 := hmin j0 (by omega)
            rw [show start + (j0 + 1) = start + 1 + j0 by omega]
            exact hj0
      · rintro ⟨i, hi, hhit, hmin, hn⟩
        cases i with
        | zero => exact absurd hr (by simpa using hhit)
        | succ i0 =>
          refine ⟨i0, by omega, ?_, ?_, by omega⟩
          · rw [show start + 1 + i0 = start + (i0 + 1) by omega]
            exact hhit
          · intro j hj
            have hj1 := hmin (j + 1) (by omega)
            rw [show start + 1 + j = start + (j + 1) by omega]
            exact hj1

/-- A polling window produces no writes, no resets, and at most `fuel`
pauses. -/
theorem pollByte_events (reads : Nat → Option Nat) (target : Nat) :
    ∀ (fuel start : Nat),
      writesOf (pollByte reads target start fuel).2 = []
      ∧ resetCount (pollByte reads target start fuel).2 = 0
      ∧ sleepCount (pollByte reads target start fuel).2 ≤ fuel := by
  intro fuel
  induction fuel with
  | zero => intro start; simp [pollByte, writesOf, resetCount, sleepCount]
  | succ n ih =>
    intro start
    obtain ⟨ihw, ihr, ihs⟩ := ih (start + 1)
    simp only [pollByte]
    by_cases hr : reads start = some target
    · rw [if_pos hr]
      refine ⟨by simp [writesOf], by simp [resetCount, sleepCount], ?_⟩
      simp [sleepCount]
    · rw [if_neg hr]
      refine ⟨?_, ?_, ?_⟩
      · show writesOf ([SerialEv.sleep, SerialEv.readOne (reads start)]
            ++ (pollByte reads target (start + 1) n).2) = []
        simp [writesOf] at ihw ⊢
        exact ihw
      · show resetCount ([SerialEv.sleep, SerialEv.readOne (reads start)]
            ++ (pollByte reads target (start + 1) n).2) = 0
        simp [resetCount, List.countP_append] at ihr ⊢
        exact ihr
      · show sleepCount ([SerialEv.sleep, SerialEv.readOne (reads start)]
            ++ (pollByte reads target (start + 1) n).2) ≤ n + 1
        simp [sleepCount, List.countP_append] at ihs ⊢
        omega

/-- `writesOf` distributes over append. -/
theorem writesOf_append (a b : List SerialEv) :
    writesOf (a ++ b) = writesOf a ++ writesOf b := by
  simp [writesOf]

/-- `resetCount` distributes over append. -/
theorem resetCount_append (a b : List SerialEv) :
    resetCount (a ++ b) = resetCount a + resetCount b := by
  simp [resetCount, List.countP_append]

/-- `sleepCount` distributes over append. -/
theorem sleepCount_append (a b : List SerialEv) :
    sleepCount (a ++ b) = sleepCount a + sleepCount b := by
  simp [sleepCount, List.countP_append]

/-- C7: the handshake first resets the input buffer and sends the single
EOT byte 0x04 (the first two actions), polls at most 30 times (100 ms
pause each) for an ENQ byte 0x05, and on success resets the buffer again
and sends `[0x16, 0x00, 0x00]` before polling at most 30 times for an
ACK byte 0x06; it succeeds exactly when an ENQ arrives within the first
window and an ACK arrives within the 30 reads that follow it; on an
ENQ timeout only the EOT write and one reset happen; at most 60 pauses
occur in total, so no retry exists beyond the two bounded windows. -/
theorem c7_handshake_protocol (reads : Nat → Option Nat) :
    ((init_vs2 reads).1 = true
      ↔ ∃ i, i < 30 ∧ reads i = some 0x05
          ∧ (∀ j, j < i → reads j ≠ some 0x05)
          ∧ ∃ k, k < 30 ∧ reads (i + 1 + k) = some 0x06)
    ∧ (init_vs2 reads).2.take 2 = [SerialEv.reset, SerialEv.write [0x04]]
    ∧ ((∃ i, i < 30 ∧ reads i = some 0x05)
        → writesOf (init_vs2 reads).2 = [[0x04], [0x16, 0x00, 0x00]]
          ∧ resetCount (init_vs2 reads).2 = 2)
    ∧ ((∀ i, i < 30 → reads i ≠ some 0x05)
        → writesOf (init_vs2 reads).2 = [[0x04]]
          ∧ resetCount (init_vs2 reads).2 = 1)
    ∧ sleepCount (init_vs2 reads).2 ≤ 60 := by
  have hpe1 := pollByte_events reads 0x05 30 0
  cases h1 : pollByte reads 0x05 0 30 with
  | mk o1 evs1 =>
  rw [h1] at hpe1
  dsimp only at hpe1
  obtain ⟨hw1, hr1, hs1⟩ := hpe1
  cases o1 with
  | none =>
    have hnone : ∀ i, i < 30 → reads (0 + i) ≠ some 0x05 :=
      (pollByte_none_iff reads 0x05 30 0).mp (by rw [h1])
    simp only [init_vs2, h1]
    refine ⟨?_, ?_, ?_, ?_, ?_⟩
    · constructor
      · intro hfalse; exact absurd hfalse (by simp)
      · rintro ⟨i, hi, hhit, -, -⟩
        exact absurd hhit (by simpa using hnone i hi)
    · simp
    · rintro ⟨i, hi, hhit⟩
      exact absurd hhit (by simpa using hnone i hi)
    · intro _
      rw [show [SerialEv.reset, SerialEv.write [0x04]] ++ evs1
          = [SerialEv.reset, SerialEv.write [0x04]] ++ evs1 from rfl]
      constructor
      · rw [writesOf_append, hw1]
        rfl
      · rw [resetCount_append, hr1]
        rfl
    · rw [sleepCount_append]
      have hz : sleepCount [SerialEv.reset, SerialEv.write [0x04]] = 0 := rfl
      rw [hz]
      omega
  | some next =>
    have hsome := (pollByte_some_iff reads 0x05 30 0 next).mp (by rw [h1])
    obtain ⟨i, hi, hhit, hmin, hnext⟩ := hsome
    have hpe2 := pollByte_events reads 0x06 30 next
    cases h2 : pollByte reads 0x06 next 30 with
    | mk o2 evs2 =>
    rw [h2] at hpe2
    dsimp only at hpe2
    obtain ⟨hw2, hr2, hs2⟩ := hpe2
    cases o2 with
    | none =>
      have hnone2 : ∀ k, k < 30 → reads (next + k) ≠ some 0x06 :=
        (pollByte_none_iff reads 0x06 30 next).mp (by rw [h2])
      simp only [init_vs2, h1, h2]
      refine ⟨?_, ?_, ?_, ?_, ?_⟩
      · constructor
        · intro hfalse; exact absurd hfalse (by simp)
        · rintro ⟨i', hi', hhit', hmin', k, hk, hack⟩
          have hieq : i' = i := by
            rcases Nat.lt_trichotomy i' i with hlt | heq | hgt
            · exact absurd hhit' (by simpa using hmin i' hlt)
            · exact heq
            · exact absurd (by simpa using hhit) (hmin' i hgt)
          subst hieq
          refine absurd hack ?_
          have hne := hnone2 k hk
          rw [hnext] at hne
          simpa [Nat.zero_add] using hne
      · simp
      · intro _
        constructor
        · rw [writesOf_append, writesOf_append, writesOf_append, hw1, hw2]
          rfl
        · rw [resetCount_append, resetCount_append, resetCount_append,
            hr1, hr2]
          rfl
      · intro hall
        exact absurd hhit (by simpa using hall i hi)
      · rw [sleepCount_append, sleepCount_append, sleepCount_append]
        have hz1 : sleepCount [SerialEv.reset, SerialEv.write [0x04]] = 0 := rfl
        have hz2 : sleepCount [SerialEv.reset,
            SerialEv.write [0x16, 0x00, 0x00]] = 0 := rfl
        rw [hz1, hz2]
        omega
    | some fin =>
      have hsome2 := (pollByte_some_iff reads 0x06 30 next fin).mp (by rw [h2])
      obtain ⟨k, hk, hack, -, -⟩ := hsome2
      simp only [init_vs2, h1, h2]
      refine ⟨?_, ?_, ?_, ?_, ?_⟩
      · constructor
        · intro _
          refine ⟨i, hi, by simpa using hhit, ?_, k, hk, ?_⟩
          · intro j hj
            simpa using hmin j hj
          · have hx := hack
            rw [hnext] at hx
            simpa [Nat.zero_add] using hx
        · intro _; trivial
      · simp
      · intro _
        constructor
        · rw [writesOf_append, writesOf_append, writesOf_append, hw1, hw2]
          rfl
        · rw [resetCount_append, resetCount_append, resetCount_append,
            hr1, hr2]
          rfl
      · intro hall
        exact absurd (by simpa using hhit) (hall i hi)
      · rw [sleepCount_append, sleepCount_append, sleepCount_append]
        have hz1 : sleepCount [SerialEv.reset, SerialEv.write [0x04]] = 0 := rfl
        have hz2 : sleepCount [SerialEv.reset,
            SerialEv.write [0x16, 0x00, 0x00]] = 0 := rfl
        rw [hz1, hz2]
        omega

/-- C7 witness: a trace answering ENQ at the third poll and ACK at the
eighth makes the handshake succeed with exactly the EOT and START
writes. -/
theorem c7_handshake_witness :
    (init_vs2 c7_reads).1 = true
    ∧ writesOf (init_vs2 c7_reads).2 = [[0x04], [0x16, 0x00, 0x00]] :=
  ⟨(c7_handshake_protocol c7_reads).1.mpr
      ⟨2, by decide, by decide,
        by intro j hj; interval_cases j <;> decide,
        ⟨4, by decide, by decide⟩⟩,
    ((c7_handshake_protocol c7_reads).2.2.1 ⟨2, by decide, by decide⟩).1⟩

end Optolink2Mqtt
